import Mathlib

/-!
nng: the mutex-fallback atomic primitives (`src/platform/posix/posix_atomic.c`)
and the socket boundary exercised by `tests/sock.c`.

A shallow embedding of the `#ifndef NNG_HAVE_STDATOMIC` backend.  Every C
function becomes a state-passing computation over `Plat`, which carries

* `plat_atomic_lock` : the single process-wide `pthread_mutex_t`,
* `obj`              : the cell the pointer argument refers to,
* `trace`            : ghost state, the list of lock and memory events performed.

Machine integers: `uint64_t` is a `Nat` below `2^64` with explicit reduction
modulo `2^64`; `int` is an `Int` in `[INT_MIN, INT_MAX]`, and `int` arithmetic
is reduced to 32 bits in two's complement (`int_wrap`), which is what the
compiled functions store when the mathematical result is out of range.
-/

namespace Nng

/-! ## Platform model -/

/-- The ways a call can fail to return a value. -/
inductive Fault where
  /-- The call `pthread_mutex_lock` on a mutex that is held: the caller does not proceed. -/
  | blocked
  /-- Undefined behaviour of the platform: unlocking a mutex that is not held. -/
  | undefined
  deriving DecidableEq, Repr

/-- Ghost events; `read` and `write` record whether `plat_atomic_lock` was
held at the moment of the access. -/
inductive Event where
  | lock
  | unlock
  | read (held : Bool)
  | write (held : Bool)
  deriving DecidableEq, Repr

/-- The process state seen by one call: the global mutex, the cell operated
on, and the ghost trace (most recent event first). -/
structure Plat (σ : Type) where
  plat_atomic_lock : Bool
  obj : σ
  trace : List Event
  deriving DecidableEq, Repr

/-- State-passing computations that may fault. -/
def Atomic (σ α : Type) : Type := Plat σ → Except Fault (α × Plat σ)

/-- Run a computation from a given state. -/
def Atomic.run {σ α : Type} (m : Atomic σ α) (p : Plat σ) : Except Fault (α × Plat σ) := m p

/-- Sequencing: the second computation runs in the state left by the first;
a fault in the first is the fault of the whole. -/
def Atomic.bind {σ α β : Type} (m : Atomic σ α) (f : α → Atomic σ β) : Atomic σ β := fun p =>
  match m p with
  | .ok (a, q) => f a q
  | .error e => .error e

instance {σ : Type} : Monad (Atomic σ) where
  pure a := fun p => .ok (a, p)
  bind := Atomic.bind

/-- The state in which a call starts: mutex free, empty trace. -/
def Plat.start {σ : Type} (x : σ) : Plat σ := ⟨false, x, []⟩

/-- Models `pthread_mutex_lock(&plat_atomic_lock)`. -/
def pthread_mutex_lock {σ : Type} : Atomic σ Unit := fun p =>
  if p.plat_atomic_lock then .error Fault.blocked
  else .ok ((), { p with plat_atomic_lock := true, trace := Event.lock :: p.trace })

/-- Models `pthread_mutex_unlock(&plat_atomic_lock)`. -/
def pthread_mutex_unlock {σ : Type} : Atomic σ Unit := fun p =>
  if p.plat_atomic_lock then
    .ok ((), { p with plat_atomic_lock := false, trace := Event.unlock :: p.trace })
  else .error Fault.undefined

/-- A read of the cell behind the pointer argument. -/
def load {σ : Type} : Atomic σ σ := fun p =>
  .ok (p.obj, { p with trace := Event.read p.plat_atomic_lock :: p.trace })

/-- A write of the cell behind the pointer argument. -/
def store {σ : Type} (x : σ) : Atomic σ Unit := fun p =>
  .ok ((), { p with obj := x, trace := Event.write p.plat_atomic_lock :: p.trace })

/-! ## Machine integers -/

/-- Number of values of `uint64_t`. -/
def UINT64_MOD : Nat := 18446744073709551616

/-- Largest `int`; `int` is 32 bits wide on the POSIX platforms nng builds for. -/
def INT_MAX : Int := 2147483647

/-- Smallest `int`. -/
def INT_MIN : Int := -2147483648

/-- Well-formedness of a `uint64_t`. -/
def isU64 (n : Nat) : Prop := n < UINT64_MOD

/-- Well-formedness of an `int`. -/
def isInt (i : Int) : Prop := INT_MIN ≤ i ∧ i ≤ INT_MAX

instance (n : Nat) : Decidable (isU64 n) := by unfold isU64; infer_instance

instance (i : Int) : Decidable (isInt i) := by unfold isInt; infer_instance

/-- Unsigned 64-bit addition. -/
def u64_add (a b : Nat) : Nat := (a + b) % UINT64_MOD

/-- Unsigned 64-bit subtraction. -/
def u64_sub (a b : Nat) : Nat := (a + (UINT64_MOD - b % UINT64_MOD)) % UINT64_MOD

/-- Number of values of `int`. -/
def INT_MOD : Int := 4294967296

/-- The `int` stored for the mathematical result `r` of an `int` addition or
subtraction: `r` itself when it is representable, else `r` reduced to 32 bits
in two's complement.  The source has no range test around `+=`, `-=`, `++`
and `--`; the calls run on to the unlock and return, and the compiled code
stores the wrapped value (ISO C itself leaves the out-of-range case open). -/
def int_wrap (r : Int) : Int := (r - INT_MIN) % INT_MOD + INT_MIN

/-! ## Cell types (`nni_atomic_flag`, `nni_atomic_bool`, `nni_atomic_u64`, `nni_atomic_int`) -/

/-- Modelled from the spec: the declaration of `nni_atomic_flag` is missing from
the sources; the AtomicFlag of §3 is a single-word value, read and written by
the source as `f->f`. -/
structure nni_atomic_flag where
  f : Bool
  deriving DecidableEq, Repr

/-- Modelled from the spec: the declaration of `nni_atomic_bool` is missing from
the sources; the AtomicBool of §3 is a single-word value, read and written by
the source as `b->b`. -/
structure nni_atomic_bool where
  b : Bool
  deriving DecidableEq, Repr

/-- Modelled from the spec: the declaration of `nni_atomic_u64` is missing from
the sources; the AtomicU64 of §3 is a single `uint64_t`, read and written by
the source as `v->v`. -/
structure nni_atomic_u64 where
  v : Nat
  deriving DecidableEq, Repr

/-- Modelled from the spec: the declaration of `nni_atomic_int` is missing from
the sources; the AtomicInt of §3 is a single `int`, read and written by the
source as `v->v`. -/
structure nni_atomic_int where
  v : Int
  deriving DecidableEq, Repr

/-! ## The operations, in source order -/

/-- Source: `bool nni_atomic_flag_test_and_set(nni_atomic_flag *f)` -/
def nni_atomic_flag_test_and_set : Atomic nni_atomic_flag Bool := do
  pthread_mutex_lock
  let v := (← load).f
  store ⟨true⟩
  pthread_mutex_unlock
  return v

/-- Source: `void nni_atomic_flag_reset(nni_atomic_flag *f)` -/
def nni_atomic_flag_reset : Atomic nni_atomic_flag Unit := do
  pthread_mutex_lock
  store ⟨false⟩
  pthread_mutex_unlock

/-- Source: `void nni_atomic_set_bool(nni_atomic_bool *b, bool n)` -/
def nni_atomic_set_bool (n : Bool) : Atomic nni_atomic_bool Unit := do
  pthread_mutex_lock
  store ⟨n⟩
  pthread_mutex_unlock

/-- Source: `bool nni_atomic_get_bool(nni_atomic_bool *b)` -/
def nni_atomic_get_bool : Atomic nni_atomic_bool Bool := do
  pthread_mutex_lock
  let v := (← load).b
  pthread_mutex_unlock
  return v

/-- Source: `bool nni_atomic_swap_bool(nni_atomic_bool *b, bool n)` -/
def nni_atomic_swap_bool (n : Bool) : Atomic nni_atomic_bool Bool := do
  pthread_mutex_lock
  let v := (← load).b
  store ⟨n⟩
  pthread_mutex_unlock
  return v

/-- Source: `void nni_atomic_init_bool(nni_atomic_bool *b)`: a bare store, no lock. -/
def nni_atomic_init_bool : Atomic nni_atomic_bool Unit := do
  store ⟨false⟩

/-- Source: `void nni_atomic_add64(nni_atomic_u64 *v, uint64_t bump)` -/
def nni_atomic_add64 (bump : Nat) : Atomic nni_atomic_u64 Unit := do
  pthread_mutex_lock
  store ⟨u64_add (← load).v bump⟩
  pthread_mutex_unlock

/-- Source: `void nni_atomic_sub64(nni_atomic_u64 *v, uint64_t bump)` -/
def nni_atomic_sub64 (bump : Nat) : Atomic nni_atomic_u64 Unit := do
  pthread_mutex_lock
  store ⟨u64_sub (← load).v bump⟩
  pthread_mutex_unlock

/-- Source: `uint64_t nni_atomic_get64(nni_atomic_u64 *v)` -/
def nni_atomic_get64 : Atomic nni_atomic_u64 Nat := do
  pthread_mutex_lock
  let rv := (← load).v
  pthread_mutex_unlock
  return rv

/-- Source: `void nni_atomic_set64(nni_atomic_u64 *v, uint64_t u)` -/
def nni_atomic_set64 (u : Nat) : Atomic nni_atomic_u64 Unit := do
  pthread_mutex_lock
  store ⟨u⟩
  pthread_mutex_unlock

/-- Source: `uint64_t nni_atomic_swap64(nni_atomic_u64 *v, uint64_t u)` -/
def nni_atomic_swap64 (u : Nat) : Atomic nni_atomic_u64 Nat := do
  pthread_mutex_lock
  let rv := (← load).v
  store ⟨u⟩
  pthread_mutex_unlock
  return rv

/-- Source: `void nni_atomic_init64(nni_atomic_u64 *v)`: a bare store, no lock. -/
def nni_atomic_init64 : Atomic nni_atomic_u64 Unit := do
  store ⟨0⟩

/-- Source: `void nni_atomic_inc64(nni_atomic_u64 *v)` -/
def nni_atomic_inc64 : Atomic nni_atomic_u64 Unit := do
  pthread_mutex_lock
  store ⟨u64_add (← load).v 1⟩
  pthread_mutex_unlock

/-- Source: `uint64_t nni_atomic_dec64_nv(nni_atomic_u64 *v)` -/
def nni_atomic_dec64_nv : Atomic nni_atomic_u64 Nat := do
  pthread_mutex_lock
  store ⟨u64_sub (← load).v 1⟩
  let nv := (← load).v
  pthread_mutex_unlock
  return nv

/-- Source: `bool nni_atomic_cas64(nni_atomic_u64 *v, uint64_t comp, uint64_t new)` -/
def nni_atomic_cas64 (comp new : Nat) : Atomic nni_atomic_u64 Bool := do
  let mut result := false
  pthread_mutex_lock
  if (← load).v == comp then
    store ⟨new⟩
    result := true
  pthread_mutex_unlock
  return result

/-- Source: `void nni_atomic_init(nni_atomic_int *v)`: this one takes the lock. -/
def nni_atomic_init : Atomic nni_atomic_int Unit := do
  pthread_mutex_lock
  store ⟨0⟩
  pthread_mutex_unlock

/-- Source: `void nni_atomic_add(nni_atomic_int *v, int bump)` -/
def nni_atomic_add (bump : Int) : Atomic nni_atomic_int Unit := do
  pthread_mutex_lock
  store ⟨int_wrap ((← load).v + bump)⟩
  pthread_mutex_unlock

/-- Source: `void nni_atomic_sub(nni_atomic_int *v, int bump)` -/
def nni_atomic_sub (bump : Int) : Atomic nni_atomic_int Unit := do
  pthread_mutex_lock
  store ⟨int_wrap ((← load).v - bump)⟩
  pthread_mutex_unlock

/-- Source: `int nni_atomic_get(nni_atomic_int *v)` -/
def nni_atomic_get : Atomic nni_atomic_int Int := do
  pthread_mutex_lock
  let rv := (← load).v
  pthread_mutex_unlock
  return rv

/-- Source: `void nni_atomic_set(nni_atomic_int *v, int i)` -/
def nni_atomic_set (i : Int) : Atomic nni_atomic_int Unit := do
  pthread_mutex_lock
  store ⟨i⟩
  pthread_mutex_unlock

/-- Source: `int nni_atomic_swap(nni_atomic_int *v, int i)` -/
def nni_atomic_swap (i : Int) : Atomic nni_atomic_int Int := do
  pthread_mutex_lock
  let rv := (← load).v
  store ⟨i⟩
  pthread_mutex_unlock
  return rv

/-- Source: `void nni_atomic_inc(nni_atomic_int *v)` -/
def nni_atomic_inc : Atomic nni_atomic_int Unit := do
  pthread_mutex_lock
  store ⟨int_wrap ((← load).v + 1)⟩
  pthread_mutex_unlock

/-- Source: `void nni_atomic_dec(nni_atomic_int *v)` -/
def nni_atomic_dec : Atomic nni_atomic_int Unit := do
  pthread_mutex_lock
  store ⟨int_wrap ((← load).v - 1)⟩
  pthread_mutex_unlock

/-- Source: `int nni_atomic_dec_nv(nni_atomic_int *v)` -/
def nni_atomic_dec_nv : Atomic nni_atomic_int Int := do
  pthread_mutex_lock
  store ⟨int_wrap ((← load).v - 1)⟩
  let nv := (← load).v
  pthread_mutex_unlock
  return nv

/-- Source: `bool nni_atomic_cas(nni_atomic_int *v, int comp, int new)` -/
def nni_atomic_cas (comp new : Int) : Atomic nni_atomic_int Bool := do
  let mut result := false
  pthread_mutex_lock
  if (← load).v == comp then
    store ⟨new⟩
    result := true
  pthread_mutex_unlock
  return result

/-! ## Observations on the outcome of a call -/

/-- The value a call returned, if it returned. -/
def retval {σ α : Type} (r : Except Fault (α × Plat σ)) : Option α :=
  match r with
  | .ok (a, _) => some a
  | .error _ => none

/-- The content of the cell after a call, if it returned. -/
def stored {σ α : Type} (r : Except Fault (α × Plat σ)) : Option σ :=
  match r with
  | .ok (_, q) => some q.obj
  | .error _ => none

/-- The calls that may appear in a schedule on one counter. -/
inductive CounterOp where
  | inc
  | get
  deriving DecidableEq, Repr

/-- One scheduled call on a 64-bit counter; a `get` yields the value observed. -/
def stepU64 : CounterOp → Atomic nni_atomic_u64 (Option Nat)
  | .inc => do nni_atomic_inc64; pure none
  | .get => do let x ← nni_atomic_get64; pure (some x)

/-- Execute a schedule on a 64-bit counter. -/
def runU64 : List CounterOp → Atomic nni_atomic_u64 Unit
  | [] => pure ()
  | op :: rest => do
      let _ ← stepU64 op
      runU64 rest

/-- One scheduled call on an `int` counter. -/
def stepInt : CounterOp → Atomic nni_atomic_int (Option Int)
  | .inc => do nni_atomic_inc; pure none
  | .get => do let x ← nni_atomic_get; pure (some x)

/-- Execute a schedule on an `int` counter. -/
def runInt : List CounterOp → Atomic nni_atomic_int Unit
  | [] => pure ()
  | op :: rest => do
      let _ ← stepInt op
      runInt rest

/-- Call `nni_atomic_flag_test_and_set` `k` times in a row on one flag (the
calls of any number of threads, in the order in which they get the lock),
collecting the values returned, first call first. -/
def testAndSetRepeat : Nat → Atomic nni_atomic_flag (List Bool)
  | 0 => pure []
  | k + 1 => do
      let r ← nni_atomic_flag_test_and_set
      let rest ← testAndSetRepeat k
      pure (r :: rest)

/-! ## Lock discipline (ghost observations on the trace) -/

/-- Number of acquisitions of `plat_atomic_lock` recorded in a trace. -/
def acquisitions (t : List Event) : Nat := t.count Event.lock

/-- Every recorded read and write happened while the mutex was held. -/
def accessesHeld (t : List Event) : Bool :=
  t.all fun e =>
    match e with
    | .read held => held
    | .write held => held
    | _ => true

/-- A call obeys the discipline when it returns with the mutex free, having
acquired it exactly once and having touched the cell only while holding it. -/
def lockDiscipline {σ α : Type} (r : Except Fault (α × Plat σ)) : Bool :=
  match r with
  | .ok (_, q) => !q.plat_atomic_lock && acquisitions q.trace == 1 && accessesHeld q.trace
  | .error _ => false

/-! ## The socket boundary exercised by `tests/sock.c`

Only the test of the socket layer is part of the sources; the functions it
calls are modelled from the specification (§4.4, §7, §8). -/

/-- Modelled from the spec: the result codes of the socket boundary (the
header `nng.h` is missing).  `ok` is the C return value `0`; the others are
the canonical indications closed, timed-out, would-block, not-supported,
connection-refused, address-in-use, and the local option error. -/
inductive nng_errno where
  | ok
  | NNG_ECLOSED
  | NNG_ETIMEDOUT
  | NNG_EAGAIN
  | NNG_ENOTSUP
  | NNG_ECONNREFUSED
  | NNG_EADDRINUSE
  | NNG_EINVAL
  deriving DecidableEq, Repr

/-- Modelled from the spec: the option names used by the test (the header
`nng.h` is missing). -/
inductive nng_opt where
  | NNG_OPT_RCVTIMEO
  | NNG_OPT_SNDTIMEO
  | NNG_OPT_RCVBUF
  | NNG_OPT_SNDBUF
  deriving DecidableEq, Repr

/-- Modelled from the spec: the natural size of an option value (missing from
the sources): the timeouts are `int64_t`, the buffer depths are `int`, as the
test passes them. -/
def nng_opt.size : nng_opt → Nat
  | .NNG_OPT_RCVTIMEO => 8
  | .NNG_OPT_SNDTIMEO => 8
  | .NNG_OPT_RCVBUF => 4
  | .NNG_OPT_SNDBUF => 4

/-- Modelled from the spec: the lifecycle of a socket (§3): open, shut down
(handle still valid for option queries), closed. -/
inductive sock_state where
  | opened
  | shut
  | closed
  deriving DecidableEq, Repr

/-- Modelled from the spec: the socket of §3 (the core `socket.c` is missing):
protocol, lifecycle state, option table, attached pipes and endpoints, receive
queue.  `cascades` is ghost state counting how often the shutdown cascade ran. -/
structure nng_socket where
  proto : Nat
  state : sock_state
  rcvtimeo : Int
  sndtimeo : Int
  rcvbuf : Int
  sndbuf : Int
  pipes : List Nat
  endpoints : List String
  recvq : List (List Nat)
  cascades : Nat
  deriving DecidableEq, Repr

/-- Modelled from the spec: `open(protocol_id)` (missing `nng_open`): "initial
state is open with no pipes/dialers/listeners and default options". -/
def nng_open (proto : Nat) : nng_socket :=
  { proto := proto, state := .opened, rcvtimeo := -1, sndtimeo := -1, rcvbuf := 0, sndbuf := 0,
    pipes := [], endpoints := [], recvq := [], cascades := 0 }

/-- Modelled from the spec: `shutdown(socket)` (missing `nng_shutdown`): the
first call on an open socket runs the cascade (stop endpoints, tear down
pipes) and returns 0; "a second `shutdown` ... reports already closed rather
than performing the cascade twice". -/
def nng_shutdown (s : nng_socket) : nng_errno × nng_socket :=
  match s.state with
  | .opened =>
      (.ok, { s with state := .shut, pipes := [], endpoints := [], cascades := s.cascades + 1 })
  | _ => (.NNG_ECLOSED, s)

/-- Modelled from the spec: `set_option(name, value)` (missing `nng_setopt`):
a value of the wrong size is a local error; the handle stays valid for
options until an explicit close. -/
def nng_setopt (s : nng_socket) (opt : nng_opt) (val : Int) (sz : Nat) : nng_errno × nng_socket :=
  if s.state = .closed then (.NNG_ECLOSED, s)
  else if sz ≠ opt.size then (.NNG_EINVAL, s)
  else
    match opt with
    | .NNG_OPT_RCVTIMEO => (.ok, { s with rcvtimeo := val })
    | .NNG_OPT_SNDTIMEO => (.ok, { s with sndtimeo := val })
    | .NNG_OPT_RCVBUF => (.ok, { s with rcvbuf := val })
    | .NNG_OPT_SNDBUF => (.ok, { s with sndbuf := val })

/-- The stored value of an option. -/
def nng_socket.option (s : nng_socket) : nng_opt → Int
  | .NNG_OPT_RCVTIMEO => s.rcvtimeo
  | .NNG_OPT_SNDTIMEO => s.sndtimeo
  | .NNG_OPT_RCVBUF => s.rcvbuf
  | .NNG_OPT_SNDBUF => s.sndbuf

/-- Modelled from the spec: `get_option(name, buffer, size)` (missing
`nng_getopt`): "with a caller buffer smaller than the option's natural size
still reports the option's natural size but copies nothing ... this must not
be treated as an error".  Takes the caller's buffer content and size, returns
the result code, the buffer content afterwards and the size reported. -/
def nng_getopt (s : nng_socket) (opt : nng_opt) (buf : Int) (sz : Nat) : nng_errno × Int × Nat :=
  if s.state = .closed then (.NNG_ECLOSED, buf, sz)
  else if sz < opt.size then (.ok, buf, opt.size)
  else (.ok, s.option opt, opt.size)

/-- What a possibly blocking call does next: return to the caller, or suspend
the calling thread on the queue. -/
inductive outcome (α : Type) where
  | returned (rv : nng_errno) (val : Option α)
  | suspended
  deriving DecidableEq, Repr

/-- Modelled from the spec: `recv(flags, deadline)` (missing `nng_recvmsg`):
after shutdown "pending and future send/recv calls fail with a closed
indication"; otherwise a queued message is returned, `NONBLOCK` on an empty
queue gives would-block, and an empty queue suspends the caller. -/
def nng_recvmsg (s : nng_socket) (nonblock : Bool) : outcome (List Nat) :=
  match s.state with
  | .opened =>
      match s.recvq with
      | m :: _ => .returned .ok (some m)
      | [] => if nonblock then .returned .NNG_EAGAIN none else .suspended
  | _ => .returned .NNG_ECLOSED none

/-- Modelled from the spec: `send(msg, flags, deadline)` (missing
`nng_sendmsg`) in the pair topology: closed indication after shutdown; with a
peer pipe and room in its queue the message is accepted, under `NONBLOCK` a
call that cannot proceed gives would-block, otherwise the caller suspends. -/
def nng_sendmsg (s : nng_socket) (room : Bool) (nonblock : Bool) : outcome Unit :=
  match s.state with
  | .opened =>
      if !s.pipes.isEmpty && room then .returned .ok none
      else if nonblock then .returned .NNG_EAGAIN none
      else .suspended
  | _ => .returned .NNG_ECLOSED none

/-- Call `nng_shutdown` `k` times in a row, collecting the result codes. -/
def shutdown_repeat : Nat → nng_socket → List nng_errno × nng_socket
  | 0, s => ([], s)
  | k + 1, s =>
      let r := nng_shutdown s
      let rest := shutdown_repeat k r.2
      (r.1 :: rest.1, rest.2)

/-! ## Threads interleaved statement by statement

The body of `nni_atomic_inc64`, cut at its statements, executed by several
threads on one counter.  A thread whose next statement is
`pthread_mutex_lock` cannot be scheduled while the mutex is held. -/

/-- Where a thread executing `nni_atomic_inc64` stands: before
`pthread_mutex_lock`; holding the lock before `v->v++`; having read `v->v`
into a temporary; having written `v->v` back, before `pthread_mutex_unlock`;
after the return. -/
inductive IncPc where
  | entry
  | locked
  | loaded (tmp : Nat)
  | written
  | returned
  deriving DecidableEq, Repr

/-- The next statement of `nni_atomic_inc64` at a program point. -/
def incStep : IncPc → Atomic nni_atomic_u64 IncPc
  | .entry => do pthread_mutex_lock; pure .locked
  | .locked => do pure (.loaded (← load).v)
  | .loaded tmp => do store ⟨u64_add tmp 1⟩; pure .written
  | .written => do pthread_mutex_unlock; pure .returned
  | .returned => pure .returned

/-- The threads of the process and the state they share. -/
structure Sys where
  plat : Plat nni_atomic_u64
  threads : List IncPc
  deriving DecidableEq, Repr

/-- Thread `i` is scheduled: it executes its next statement; if that is
`pthread_mutex_lock` and the mutex is held it stays where it is.  There is no
next state for an index that names no thread, nor after undefined behaviour. -/
def sysStep (i : Nat) (s : Sys) : Option Sys :=
  match s.threads[i]? with
  | none => none
  | some pc =>
      match (incStep pc).run s.plat with
      | .ok (pc', q) => some ⟨q, s.threads.set i pc'⟩
      | .error Fault.blocked => some s
      | .error Fault.undefined => none

/-- Execute an interleaving, given as the sequence of thread indices that
take the successive steps. -/
def runInterleaving : List Nat → Sys → Option Sys
  | [], s => some s
  | i :: rest, s =>
      match sysStep i s with
      | some s' => runInterleaving rest s'
      | none => none

/-- The thread is between its `pthread_mutex_lock` and `pthread_mutex_unlock`. -/
def IncPc.inCritical : IncPc → Bool
  | .locked => true
  | .loaded _ => true
  | .written => true
  | _ => false

/-- The thread has performed its write of `v->v`. -/
def IncPc.hasBumped : IncPc → Bool
  | .written => true
  | .returned => true
  | _ => false

/-- What holds of the shared state at every point of every interleaving of
calls of `nni_atomic_inc64` started on a counter holding `v0`. -/
structure IncInv (v0 : Nat) (s : Sys) : Prop where
  crit : s.threads.countP IncPc.inCritical = if s.plat.plat_atomic_lock then 1 else 0
  tmp : ∀ x, IncPc.loaded x ∈ s.threads → x = s.plat.obj.v
  val : s.plat.obj.v = (v0 + s.threads.countP IncPc.hasBumped) % UINT64_MOD
  held : accessesHeld s.plat.trace = true

/-! ## Running a call -/

@[simp] theorem run_pure {σ α : Type} (a : α) (p : Plat σ) :
    (pure a : Atomic σ α).run p = .ok (a, p) := rfl

@[simp] theorem run_bind {σ α β : Type} (m : Atomic σ α) (f : α → Atomic σ β) (p : Plat σ) :
    (m >>= f).run p =
      match m.run p with
      | .ok (a, q) => (f a).run q
      | .error e => .error e := rfl

@[simp] theorem run_map {σ α β : Type} (m : Atomic σ α) (f : α → β) (p : Plat σ) :
    (f <$> m).run p =
      match m.run p with
      | .ok (a, q) => .ok (f a, q)
      | .error e => .error e := by
  show Atomic.bind m _ p = _
  unfold Atomic.bind Atomic.run
  cases m p <;> rfl

@[simp] theorem run_ite {σ α : Type} (c : Prop) [Decidable c] (a b : Atomic σ α) (p : Plat σ) :
    (if c then a else b).run p = if c then a.run p else b.run p := by
  split <;> rfl

@[simp] theorem run_lock_free {σ : Type} (x : σ) (t : List Event) :
    (pthread_mutex_lock : Atomic σ Unit).run ⟨false, x, t⟩ = .ok ((), ⟨true, x, Event.lock :: t⟩) := rfl

@[simp] theorem run_lock_held {σ : Type} (x : σ) (t : List Event) :
    (pthread_mutex_lock : Atomic σ Unit).run ⟨true, x, t⟩ = .error Fault.blocked := rfl

@[simp] theorem run_unlock_held {σ : Type} (x : σ) (t : List Event) :
    (pthread_mutex_unlock : Atomic σ Unit).run ⟨true, x, t⟩ = .ok ((), ⟨false, x, Event.unlock :: t⟩) := rfl

@[simp] theorem run_unlock_free {σ : Type} (x : σ) (t : List Event) :
    (pthread_mutex_unlock : Atomic σ Unit).run ⟨false, x, t⟩ = .error Fault.undefined := rfl

@[simp] theorem run_load {σ : Type} (l : Bool) (x : σ) (t : List Event) :
    (load : Atomic σ σ).run ⟨l, x, t⟩ = .ok (x, ⟨l, x, Event.read l :: t⟩) := rfl

@[simp] theorem run_store {σ : Type} (l : Bool) (x y : σ) (t : List Event) :
    (store y : Atomic σ Unit).run ⟨l, x, t⟩ = .ok ((), ⟨l, y, Event.write l :: t⟩) := rfl

theorem int_wrap_of_isInt (r : Int) (h : isInt r) : int_wrap r = r := by
  simp only [isInt, int_wrap, INT_MIN, INT_MAX, INT_MOD] at *
  omega

theorem flag_test_and_set_run (f : Bool) (t : List Event) :
    nni_atomic_flag_test_and_set.run ⟨false, ⟨f⟩, t⟩ =
      .ok (f, ⟨false, ⟨true⟩, .unlock :: .write true :: .read true :: .lock :: t⟩) := rfl

theorem flag_reset_run (f : Bool) (t : List Event) :
    nni_atomic_flag_reset.run ⟨false, ⟨f⟩, t⟩ =
      .ok ((), ⟨false, ⟨false⟩, .unlock :: .write true :: .lock :: t⟩) := rfl

theorem set_bool_run (b n : Bool) (t : List Event) :
    (nni_atomic_set_bool n).run ⟨false, ⟨b⟩, t⟩ =
      .ok ((), ⟨false, ⟨n⟩, .unlock :: .write true :: .lock :: t⟩) := rfl

theorem get_bool_run (b : Bool) (t : List Event) :
    nni_atomic_get_bool.run ⟨false, ⟨b⟩, t⟩ =
      .ok (b, ⟨false, ⟨b⟩, .unlock :: .read true :: .lock :: t⟩) := rfl

theorem swap_bool_run (b n : Bool) (t : List Event) :
    (nni_atomic_swap_bool n).run ⟨false, ⟨b⟩, t⟩ =
      .ok (b, ⟨false, ⟨n⟩, .unlock :: .write true :: .read true :: .lock :: t⟩) := rfl

theorem init_bool_run (l b : Bool) (t : List Event) :
    nni_atomic_init_bool.run ⟨l, ⟨b⟩, t⟩ = .ok ((), ⟨l, ⟨false⟩, .write l :: t⟩) := rfl

theorem add64_run (v bump : Nat) (t : List Event) :
    (nni_atomic_add64 bump).run ⟨false, ⟨v⟩, t⟩ =
      .ok ((), ⟨false, ⟨u64_add v bump⟩, .unlock :: .write true :: .read true :: .lock :: t⟩) := rfl

theorem sub64_run (v bump : Nat) (t : List Event) :
    (nni_atomic_sub64 bump).run ⟨false, ⟨v⟩, t⟩ =
      .ok ((), ⟨false, ⟨u64_sub v bump⟩, .unlock :: .write true :: .read true :: .lock :: t⟩) := rfl

theorem get64_run (v : Nat) (t : List Event) :
    nni_atomic_get64.run ⟨false, ⟨v⟩, t⟩ =
      .ok (v, ⟨false, ⟨v⟩, .unlock :: .read true :: .lock :: t⟩) := rfl

theorem set64_run (v u : Nat) (t : List Event) :
    (nni_atomic_set64 u).run ⟨false, ⟨v⟩, t⟩ =
      .ok ((), ⟨false, ⟨u⟩, .unlock :: .write true :: .lock :: t⟩) := rfl

theorem swap64_run (v u : Nat) (t : List Event) :
    (nni_atomic_swap64 u).run ⟨false, ⟨v⟩, t⟩ =
      .ok (v, ⟨false, ⟨u⟩, .unlock :: .write true :: .read true :: .lock :: t⟩) := rfl

theorem init64_run (l : Bool) (v : Nat) (t : List Event) :
    nni_atomic_init64.run ⟨l, ⟨v⟩, t⟩ = .ok ((), ⟨l, ⟨0⟩, .write l :: t⟩) := rfl

theorem inc64_run (v : Nat) (t : List Event) :
    nni_atomic_inc64.run ⟨false, ⟨v⟩, t⟩ =
      .ok ((), ⟨false, ⟨u64_add v 1⟩, .unlock :: .write true :: .read true :: .lock :: t⟩) := rfl

theorem dec64_nv_run (v : Nat) (t : List Event) :
    nni_atomic_dec64_nv.run ⟨false, ⟨v⟩, t⟩ =
      .ok (u64_sub v 1, ⟨false, ⟨u64_sub v 1⟩,
        .unlock :: .read true :: .write true :: .read true :: .lock :: t⟩) := rfl

theorem cas64_run (v comp new : Nat) (t : List Event) :
    (nni_atomic_cas64 comp new).run ⟨false, ⟨v⟩, t⟩ =
      if v = comp then .ok (true, ⟨false, ⟨new⟩, .unlock :: .write true :: .read true :: .lock :: t⟩)
      else .ok (false, ⟨false, ⟨v⟩, .unlock :: .read true :: .lock :: t⟩) := by
  by_cases h : v = comp <;>
    simp only [nni_atomic_cas64, run_bind, run_pure, run_map, run_ite, run_load, run_store,
      run_lock_free, run_unlock_held, beq_iff_eq, h, if_true, if_false]

theorem init_run (v : Int) (t : List Event) :
    nni_atomic_init.run ⟨false, ⟨v⟩, t⟩ =
      .ok ((), ⟨false, ⟨0⟩, .unlock :: .write true :: .lock :: t⟩) := rfl

theorem add_run (v bump : Int) (t : List Event) :
    (nni_atomic_add bump).run ⟨false, ⟨v⟩, t⟩ =
      .ok ((), ⟨false, ⟨int_wrap (v + bump)⟩,
        .unlock :: .write true :: .read true :: .lock :: t⟩) := rfl

theorem sub_run (v bump : Int) (t : List Event) :
    (nni_atomic_sub bump).run ⟨false, ⟨v⟩, t⟩ =
      .ok ((), ⟨false, ⟨int_wrap (v - bump)⟩,
        .unlock :: .write true :: .read true :: .lock :: t⟩) := rfl

theorem get_run (v : Int) (t : List Event) :
    nni_atomic_get.run ⟨false, ⟨v⟩, t⟩ =
      .ok (v, ⟨false, ⟨v⟩, .unlock :: .read true :: .lock :: t⟩) := rfl

theorem set_run (v i : Int) (t : List Event) :
    (nni_atomic_set i).run ⟨false, ⟨v⟩, t⟩ =
      .ok ((), ⟨false, ⟨i⟩, .unlock :: .write true :: .lock :: t⟩) := rfl

theorem swap_run (v i : Int) (t : List Event) :
    (nni_atomic_swap i).run ⟨false, ⟨v⟩, t⟩ =
      .ok (v, ⟨false, ⟨i⟩, .unlock :: .write true :: .read true :: .lock :: t⟩) := rfl

theorem inc_run (v : Int) (t : List Event) :
    nni_atomic_inc.run ⟨false, ⟨v⟩, t⟩ =
      .ok ((), ⟨false, ⟨int_wrap (v + 1)⟩,
        .unlock :: .write true :: .read true :: .lock :: t⟩) := rfl

theorem dec_run (v : Int) (t : List Event) :
    nni_atomic_dec.run ⟨false, ⟨v⟩, t⟩ =
      .ok ((), ⟨false, ⟨int_wrap (v - 1)⟩,
        .unlock :: .write true :: .read true :: .lock :: t⟩) := rfl

theorem dec_nv_run (v : Int) (t : List Event) :
    nni_atomic_dec_nv.run ⟨false, ⟨v⟩, t⟩ =
      .ok (int_wrap (v - 1), ⟨false, ⟨int_wrap (v - 1)⟩,
        .unlock :: .read true :: .write true :: .read true :: .lock :: t⟩) := rfl

theorem cas_run (v comp new : Int) (t : List Event) :
    (nni_atomic_cas comp new).run ⟨false, ⟨v⟩, t⟩ =
      if v = comp then .ok (true, ⟨false, ⟨new⟩, .unlock :: .write true :: .read true :: .lock :: t⟩)
      else .ok (false, ⟨false, ⟨v⟩, .unlock :: .read true :: .lock :: t⟩) := by
  by_cases h : v = comp <;>
    simp only [nni_atomic_cas, run_bind, run_pure, run_map, run_ite, run_load, run_store,
      run_lock_free, run_unlock_held, beq_iff_eq, h, if_true, if_false]

/-! ## Contract of the primitives -/

/-- C1. Compare-and-swap on a 64-bit cell and on an `int` cell: the call
returns `true` exactly when the stored value equals `comp`; after `true`
the cell holds `new`, after `false` it still holds the old value. -/
theorem cas_contract (v comp new : Nat) (w c n : Int) :
    (∃ r x, retval ((nni_atomic_cas64 comp new).run (Plat.start ⟨v⟩)) = some r ∧
        stored ((nni_atomic_cas64 comp new).run (Plat.start ⟨v⟩)) = some ⟨x⟩ ∧
        (r = true ↔ v = comp) ∧ (r = true → x = new) ∧ (r = false → x = v)) ∧
    (∃ r x, retval ((nni_atomic_cas c n).run (Plat.start ⟨w⟩)) = some r ∧
        stored ((nni_atomic_cas c n).run (Plat.start ⟨w⟩)) = some ⟨x⟩ ∧
        (r = true ↔ w = c) ∧ (r = true → x = n) ∧ (r = false → x = w)) := by
  constructor
  · by_cases h : v = comp
    · exact ⟨true, new, by simp [Plat.start, cas64_run, h, retval],
        by simp [Plat.start, cas64_run, h, stored], by simp [h], by simp, by simp⟩
    · exact ⟨false, v, by simp [Plat.start, cas64_run, h, retval],
        by simp [Plat.start, cas64_run, h, stored], by simp [h], by simp, by simp⟩
  · by_cases h : w = c
    · exact ⟨true, n, by simp [Plat.start, cas_run, h, retval],
        by simp [Plat.start, cas_run, h, stored], by simp [h], by simp, by simp⟩
    · exact ⟨false, w, by simp [Plat.start, cas_run, h, retval],
        by simp [Plat.start, cas_run, h, stored], by simp [h], by simp, by simp⟩

/-- C2. Swap on `int`, 64-bit and `bool` cells returns the value the
matching `get` returns in the same state and leaves the cell in the state
the matching `set` leaves, namely holding the argument. -/
theorem swap_contract (v n : Int) (v64 n64 : Nat) (vb nb : Bool) :
    (retval ((nni_atomic_swap n).run (Plat.start ⟨v⟩)) = some v ∧
      retval (nni_atomic_get.run (Plat.start ⟨v⟩)) = some v ∧
      stored ((nni_atomic_swap n).run (Plat.start ⟨v⟩)) = some ⟨n⟩ ∧
      stored ((nni_atomic_set n).run (Plat.start ⟨v⟩)) = some ⟨n⟩) ∧
    (retval ((nni_atomic_swap64 n64).run (Plat.start ⟨v64⟩)) = some v64 ∧
      retval (nni_atomic_get64.run (Plat.start ⟨v64⟩)) = some v64 ∧
      stored ((nni_atomic_swap64 n64).run (Plat.start ⟨v64⟩)) = some ⟨n64⟩ ∧
      stored ((nni_atomic_set64 n64).run (Plat.start ⟨v64⟩)) = some ⟨n64⟩) ∧
    (retval ((nni_atomic_swap_bool nb).run (Plat.start ⟨vb⟩)) = some vb ∧
      retval (nni_atomic_get_bool.run (Plat.start ⟨vb⟩)) = some vb ∧
      stored ((nni_atomic_swap_bool nb).run (Plat.start ⟨vb⟩)) = some ⟨nb⟩ ∧
      stored ((nni_atomic_set_bool nb).run (Plat.start ⟨vb⟩)) = some ⟨nb⟩) := by
  refine ⟨⟨?_, ?_, ?_, ?_⟩, ⟨?_, ?_, ?_, ?_⟩, ⟨?_, ?_, ?_, ?_⟩⟩ <;> rfl


/-! ## Schedules -/

theorem stepU64_inc_run (v : Nat) (t : List Event) :
    (stepU64 .inc).run ⟨false, ⟨v⟩, t⟩ =
      .ok (none, ⟨false, ⟨u64_add v 1⟩, .unlock :: .write true :: .read true :: .lock :: t⟩) := rfl

theorem stepU64_get_run (v : Nat) (t : List Event) :
    (stepU64 .get).run ⟨false, ⟨v⟩, t⟩ =
      .ok (some v, ⟨false, ⟨v⟩, .unlock :: .read true :: .lock :: t⟩) := rfl

theorem u64_add_isU64 (a b : Nat) : isU64 (u64_add a b) := by
  simp only [isU64, u64_add, UINT64_MOD]
  omega

theorem u64_sub_isU64 (a b : Nat) : isU64 (u64_sub a b) := by
  simp only [isU64, u64_sub, UINT64_MOD]
  omega

theorem u64_add_one_add (v n : Nat) :
    (u64_add v 1 + n) % UINT64_MOD = (v + (n + 1)) % UINT64_MOD := by
  simp only [u64_add, UINT64_MOD]
  omega

/-- A schedule on a 64-bit counter always runs to completion, leaves the
mutex free and has added the number of its increments modulo `2^64`. -/
theorem runU64_spec (sched : List CounterOp) :
    ∀ (v : Nat) (t : List Event), isU64 v → ∃ t',
      (runU64 sched).run ⟨false, ⟨v⟩, t⟩ =
        .ok ((), ⟨false, ⟨(v + sched.count .inc) % UINT64_MOD⟩, t'⟩) := by
  induction sched with
  | nil =>
    intro v t hv
    exact ⟨t, by rw [List.count_nil, Nat.add_zero, Nat.mod_eq_of_lt hv]; rfl⟩
  | cons op rest ih =>
    intro v t hv
    cases op with
    | inc =>
      obtain ⟨t', hrun⟩ := ih (u64_add v 1) (.unlock :: .write true :: .read true :: .lock :: t)
        (u64_add_isU64 v 1)
      refine ⟨t', ?_⟩
      rw [runU64, run_bind, stepU64_inc_run, List.count_cons_self, ← u64_add_one_add]
      exact hrun
    | get =>
      obtain ⟨t', hrun⟩ := ih v (.unlock :: .read true :: .lock :: t) hv
      refine ⟨t', ?_⟩
      rw [runU64, run_bind, stepU64_get_run, List.count_cons_of_ne (by decide)]
      exact hrun

theorem stepInt_inc_run (v : Int) (t : List Event) (h : isInt (v + 1)) :
    (stepInt .inc).run ⟨false, ⟨v⟩, t⟩ =
      .ok (none, ⟨false, ⟨v + 1⟩, .unlock :: .write true :: .read true :: .lock :: t⟩) := by
  have e : (stepInt .inc).run ⟨false, ⟨v⟩, t⟩ =
      .ok (none, ⟨false, ⟨int_wrap (v + 1)⟩,
        .unlock :: .write true :: .read true :: .lock :: t⟩) := rfl
  rw [e, int_wrap_of_isInt (v + 1) h]

theorem stepInt_get_run (v : Int) (t : List Event) :
    (stepInt .get).run ⟨false, ⟨v⟩, t⟩ =
      .ok (some v, ⟨false, ⟨v⟩, .unlock :: .read true :: .lock :: t⟩) := rfl

/-- A schedule on an `int` counter runs to completion and has added the
number of its increments, provided the final value is representable. -/
theorem runInt_spec (sched : List CounterOp) :
    ∀ (v : Int) (t : List Event), isInt v → v + sched.count .inc ≤ INT_MAX → ∃ t',
      (runInt sched).run ⟨false, ⟨v⟩, t⟩ = .ok ((), ⟨false, ⟨v + sched.count .inc⟩, t'⟩) := by
  induction sched with
  | nil =>
    intro v t _ _
    exact ⟨t, by rw [List.count_nil, Nat.cast_zero, Int.add_zero]; rfl⟩
  | cons op rest ih =>
    intro v t hv hN
    cases op with
    | inc =>
      rw [List.count_cons_self] at hN
      have h1 : isInt (v + 1) := by
        unfold isInt at hv ⊢
        unfold INT_MIN INT_MAX at *
        omega
      obtain ⟨t', hrun⟩ := ih (v + 1) (.unlock :: .write true :: .read true :: .lock :: t) h1
        (by push_cast at hN; omega)
      refine ⟨t', ?_⟩
      rw [runInt, run_bind, stepInt_inc_run v t h1, List.count_cons_self]
      have e : v + ((List.count CounterOp.inc rest + 1 : Nat) : Int) =
          v + 1 + (List.count CounterOp.inc rest : Int) := by push_cast; omega
      rw [e]
      exact hrun
    | get =>
      rw [List.count_cons_of_ne (by decide)] at hN
      obtain ⟨t', hrun⟩ := ih v (.unlock :: .read true :: .lock :: t) hv hN
      refine ⟨t', ?_⟩
      rw [runInt, run_bind, stepInt_get_run, List.count_cons_of_ne (by decide)]
      exact hrun

/-- C3. Atomic counter property.  For every schedule of increment and get
calls on one counter (each call one indivisible step under the global lock)
that contains `N` increments, the get that follows returns `v0 + N`: modulo
`2^64` for `nni_atomic_inc64` / `nni_atomic_get64`, for every `N`; and
exactly for `nni_atomic_inc` / `nni_atomic_get` on a schedule with `M`
increments whenever `w0 + M` does not exceed `INT_MAX`.  The two counters
have their own schedules, so the condition on the `int` counter puts no
bound on the number of increments of the 64-bit one. -/
theorem counter_property (N : Nat) (sched : List CounterOp) (hN : sched.count .inc = N)
    (v0 : Nat) (hv : isU64 v0)
    (M : Nat) (schedInt : List CounterOp) (hM : schedInt.count .inc = M)
    (w0 : Int) (hw : isInt w0) (hmax : w0 + M ≤ INT_MAX) :
    retval ((do runU64 sched; nni_atomic_get64).run (Plat.start ⟨v0⟩))
        = some ((v0 + N) % 2 ^ 64) ∧
    retval ((do runInt schedInt; nni_atomic_get).run (Plat.start ⟨w0⟩)) = some (w0 + M) := by
  subst hN
  subst hM
  constructor
  · obtain ⟨t', hrun⟩ := runU64_spec sched v0 [] hv
    show retval (Atomic.run (runU64 sched >>= fun _ => nni_atomic_get64) ⟨false, ⟨v0⟩, []⟩) = _
    rw [run_bind, hrun]
    rfl
  · obtain ⟨t', hrun⟩ := runInt_spec schedInt w0 [] hw hmax
    show retval (Atomic.run (runInt schedInt >>= fun _ => nni_atomic_get) ⟨false, ⟨w0⟩, []⟩) = _
    rw [run_bind, hrun]
    rfl

theorem counter_property_witness :
    (isU64 18446744073709551615 ∧ isInt 2147483645 ∧ (2147483645 : Int) + (2 : Nat) ≤ INT_MAX) ∧
    retval ((do runU64 [.inc, .get, .inc, .inc, .get, .inc, .inc]; nni_atomic_get64).run
        (Plat.start ⟨18446744073709551615⟩))
      = some ((18446744073709551615 + 5) % 2 ^ 64) ∧
    retval ((do runInt [.inc, .get, .inc]; nni_atomic_get).run (Plat.start ⟨2147483645⟩))
        = some ((2147483645 : Int) + (2 : Nat)) :=
  ⟨by decide, counter_property 5 [.inc, .get, .inc, .inc, .get, .inc, .inc] (by decide)
    18446744073709551615 (by decide)
    2 [.inc, .get, .inc] (by decide) 2147483645 (by decide) (by decide)⟩

/-- The 64-bit counter is not bounded by the `int` range: after `2^32`
increments, more than any `int` counter can take, the counter that held 7
holds `7 + 2^32`. -/
theorem runU64_past_int_range :
    ∃ t', (runU64 (List.replicate 4294967296 .inc)).run ⟨false, ⟨7⟩, []⟩
      = .ok ((), ⟨false, ⟨4294967303⟩, t'⟩) := by
  obtain ⟨t', h⟩ := runU64_spec (List.replicate 4294967296 .inc) 7 [] (by decide)
  rw [List.count_replicate_self] at h
  exact ⟨t', h⟩

theorem u64_sub_one_int (v : Nat) : ((u64_sub v 1 : Nat) : Int) = ((v : Int) - 1) % 2 ^ 64 := by
  simp only [u64_sub, UINT64_MOD]
  omega

theorem u64_sub_one_ne (v : Nat) : u64_sub v 1 ≠ v := by
  simp only [u64_sub, UINT64_MOD]
  omega

/-- C4. Decrement-and-fetch returns the new value.  `nni_atomic_dec64_nv`
returns `(v - 1) mod 2^64`, `nni_atomic_dec_nv` returns `v - 1` for
`v > INT_MIN`; the get that follows returns the same value, which is the
value stored, and it differs from the value before the decrement. -/
theorem dec_nv_contract (v : Nat) (w : Int) (hw : isInt w) (hmin : INT_MIN < w) :
    (∃ nv : Nat, (nv : Int) = ((v : Int) - 1) % 2 ^ 64 ∧ nv ≠ v ∧
      retval (nni_atomic_dec64_nv.run (Plat.start ⟨v⟩)) = some nv ∧
      stored (nni_atomic_dec64_nv.run (Plat.start ⟨v⟩)) = some ⟨nv⟩ ∧
      retval ((do let _ ← nni_atomic_dec64_nv; nni_atomic_get64).run (Plat.start ⟨v⟩)) = some nv) ∧
    (w - 1 ≠ w ∧ retval (nni_atomic_dec_nv.run (Plat.start ⟨w⟩)) = some (w - 1) ∧
      stored (nni_atomic_dec_nv.run (Plat.start ⟨w⟩)) = some ⟨w - 1⟩ ∧
      retval ((do let _ ← nni_atomic_dec_nv; nni_atomic_get).run (Plat.start ⟨w⟩)) = some (w - 1)) := by
  have h1 : isInt (w - 1) := by
    unfold isInt at hw ⊢
    unfold INT_MIN INT_MAX at *
    omega
  refine ⟨⟨u64_sub v 1, u64_sub_one_int v, u64_sub_one_ne v, rfl, rfl, rfl⟩, by omega, ?_, ?_, ?_⟩
  · rw [Plat.start, dec_nv_run, int_wrap_of_isInt (w - 1) h1]
    rfl
  · rw [Plat.start, dec_nv_run, int_wrap_of_isInt (w - 1) h1]
    rfl
  · rw [Plat.start, run_bind, dec_nv_run, int_wrap_of_isInt (w - 1) h1]
    rfl

theorem dec_nv_contract_witness :
    (isInt (-2147483647) ∧ INT_MIN < -2147483647) ∧
    (∃ nv : Nat, (nv : Int) = (((0 : Nat) : Int) - 1) % 2 ^ 64 ∧ nv ≠ 0 ∧
      retval (nni_atomic_dec64_nv.run (Plat.start ⟨0⟩)) = some nv ∧
      stored (nni_atomic_dec64_nv.run (Plat.start ⟨0⟩)) = some ⟨nv⟩ ∧
      retval ((do let _ ← nni_atomic_dec64_nv; nni_atomic_get64).run (Plat.start ⟨0⟩)) = some nv) ∧
    ((-2147483647 : Int) - 1 ≠ -2147483647 ∧
      retval (nni_atomic_dec_nv.run (Plat.start ⟨-2147483647⟩)) = some (-2147483647 - 1) ∧
      stored (nni_atomic_dec_nv.run (Plat.start ⟨-2147483647⟩)) = some ⟨-2147483647 - 1⟩ ∧
      retval ((do let _ ← nni_atomic_dec_nv; nni_atomic_get).run (Plat.start ⟨-2147483647⟩))
        = some (-2147483647 - 1)) :=
  ⟨by decide, dec_nv_contract 0 (-2147483647) (by decide) (by decide)⟩

/-- C5. Set/get agreement on `int`, 64-bit and `bool` cells: whatever the
cell held, the get after `set x` returns `x`; and a get leaves the cell
unchanged, so two consecutive gets return the same, stored, value. -/
theorem set_get_agreement (v x : Int) (v64 x64 : Nat) (vb xb : Bool) :
    (retval ((do nni_atomic_set x; nni_atomic_get).run (Plat.start ⟨v⟩)) = some x ∧
      retval ((do let a ← nni_atomic_get; let b ← nni_atomic_get; pure (a, b)).run
        (Plat.start ⟨v⟩)) = some (v, v) ∧
      stored (nni_atomic_get.run (Plat.start ⟨v⟩)) = some ⟨v⟩) ∧
    (retval ((do nni_atomic_set64 x64; nni_atomic_get64).run (Plat.start ⟨v64⟩)) = some x64 ∧
      retval ((do let a ← nni_atomic_get64; let b ← nni_atomic_get64; pure (a, b)).run
        (Plat.start ⟨v64⟩)) = some (v64, v64) ∧
      stored (nni_atomic_get64.run (Plat.start ⟨v64⟩)) = some ⟨v64⟩) ∧
    (retval ((do nni_atomic_set_bool xb; nni_atomic_get_bool).run (Plat.start ⟨vb⟩)) = some xb ∧
      retval ((do let a ← nni_atomic_get_bool; let b ← nni_atomic_get_bool; pure (a, b)).run
        (Plat.start ⟨vb⟩)) = some (vb, vb) ∧
      stored (nni_atomic_get_bool.run (Plat.start ⟨vb⟩)) = some ⟨vb⟩) :=
  ⟨⟨rfl, rfl, rfl⟩, ⟨rfl, rfl, rfl⟩, ⟨rfl, rfl, rfl⟩⟩

/-- C6. Explicit initialisation fixes the state whatever the cell held: the
get after `nni_atomic_init` / `nni_atomic_init64` / `nni_atomic_init_bool`
returns `0` / `0` / `false`, and initialising twice leaves the same cell
content as initialising once. -/
theorem init_contract (v : Int) (v64 : Nat) (vb : Bool) :
    (retval ((do nni_atomic_init; nni_atomic_get).run (Plat.start ⟨v⟩)) = some 0 ∧
      stored ((do nni_atomic_init; nni_atomic_init).run (Plat.start ⟨v⟩))
        = stored (nni_atomic_init.run (Plat.start ⟨v⟩))) ∧
    (retval ((do nni_atomic_init64; nni_atomic_get64).run (Plat.start ⟨v64⟩)) = some 0 ∧
      stored ((do nni_atomic_init64; nni_atomic_init64).run (Plat.start ⟨v64⟩))
        = stored (nni_atomic_init64.run (Plat.start ⟨v64⟩))) ∧
    (retval ((do nni_atomic_init_bool; nni_atomic_get_bool).run (Plat.start ⟨vb⟩)) = some false ∧
      stored ((do nni_atomic_init_bool; nni_atomic_init_bool).run (Plat.start ⟨vb⟩))
        = stored (nni_atomic_init_bool.run (Plat.start ⟨vb⟩))) :=
  ⟨⟨rfl, rfl⟩, ⟨rfl, rfl⟩, ⟨rfl, rfl⟩⟩


/-- What the `int` arithmetic calls leave at the limits of the type: the
increment of `INT_MAX` and an overflowing add leave `INT_MIN`, the decrements
of `INT_MIN` and an overflowing sub leave `INT_MAX`; each call returns. -/
theorem int_arith_at_limits :
    stored (nni_atomic_inc.run (Plat.start ⟨INT_MAX⟩)) = some ⟨INT_MIN⟩ ∧
    stored (nni_atomic_dec.run (Plat.start ⟨INT_MIN⟩)) = some ⟨INT_MAX⟩ ∧
    retval (nni_atomic_dec_nv.run (Plat.start ⟨INT_MIN⟩)) = some INT_MAX ∧
    stored ((nni_atomic_add 1).run (Plat.start ⟨INT_MAX⟩)) = some ⟨INT_MIN⟩ ∧
    stored ((nni_atomic_sub 1).run (Plat.start ⟨INT_MIN⟩)) = some ⟨INT_MAX⟩ := by
  decide

/-- C8 at the failing inputs.  `nni_atomic_init_bool` and `nni_atomic_init64`
write their cell without ever acquiring `plat_atomic_lock`: the only event is
a write with the mutex not held, so both break the lock discipline, whereas
the sibling `nni_atomic_init` obeys it. -/
theorem init_bypasses_lock (b : Bool) (v : Nat) (w : Int) :
    (nni_atomic_init_bool.run (Plat.start ⟨b⟩) = .ok ((), ⟨false, ⟨false⟩, [.write false]⟩) ∧
      lockDiscipline (nni_atomic_init_bool.run (Plat.start ⟨b⟩)) = false) ∧
    (nni_atomic_init64.run (Plat.start ⟨v⟩) = .ok ((), ⟨false, ⟨0⟩, [.write false]⟩) ∧
      lockDiscipline (nni_atomic_init64.run (Plat.start ⟨v⟩)) = false) ∧
    (nni_atomic_init.run (Plat.start ⟨w⟩)
        = .ok ((), ⟨false, ⟨0⟩, [.unlock, .write true, .lock]⟩) ∧
      lockDiscipline (nni_atomic_init.run (Plat.start ⟨w⟩)) = true) :=
  ⟨⟨rfl, rfl⟩, ⟨rfl, rfl⟩, ⟨rfl, rfl⟩⟩

/-- Every call other than `nni_atomic_init_bool` and `nni_atomic_init64`,
started with the mutex free, acquires it exactly once, reads and writes its
cell only while holding it, and returns with the mutex free. -/
theorem lock_discipline_locked_calls (f n : Bool) (v u c : Nat) (w i k bump : Int) :
    (lockDiscipline (nni_atomic_flag_test_and_set.run (Plat.start ⟨f⟩)) = true ∧
      lockDiscipline (nni_atomic_flag_reset.run (Plat.start ⟨f⟩)) = true ∧
      lockDiscipline ((nni_atomic_set_bool n).run (Plat.start ⟨f⟩)) = true ∧
      lockDiscipline (nni_atomic_get_bool.run (Plat.start ⟨f⟩)) = true ∧
      lockDiscipline ((nni_atomic_swap_bool n).run (Plat.start ⟨f⟩)) = true) ∧
    (lockDiscipline ((nni_atomic_add64 u).run (Plat.start ⟨v⟩)) = true ∧
      lockDiscipline ((nni_atomic_sub64 u).run (Plat.start ⟨v⟩)) = true ∧
      lockDiscipline (nni_atomic_get64.run (Plat.start ⟨v⟩)) = true ∧
      lockDiscipline ((nni_atomic_set64 u).run (Plat.start ⟨v⟩)) = true ∧
      lockDiscipline ((nni_atomic_swap64 u).run (Plat.start ⟨v⟩)) = true ∧
      lockDiscipline (nni_atomic_inc64.run (Plat.start ⟨v⟩)) = true ∧
      lockDiscipline (nni_atomic_dec64_nv.run (Plat.start ⟨v⟩)) = true ∧
      lockDiscipline ((nni_atomic_cas64 c u).run (Plat.start ⟨v⟩)) = true) ∧
    (lockDiscipline (nni_atomic_init.run (Plat.start ⟨w⟩)) = true ∧
      lockDiscipline (nni_atomic_get.run (Plat.start ⟨w⟩)) = true ∧
      lockDiscipline ((nni_atomic_set i).run (Plat.start ⟨w⟩)) = true ∧
      lockDiscipline ((nni_atomic_swap i).run (Plat.start ⟨w⟩)) = true ∧
      lockDiscipline ((nni_atomic_cas k i).run (Plat.start ⟨w⟩)) = true) ∧
    (lockDiscipline ((nni_atomic_add bump).run (Plat.start ⟨w⟩)) = true ∧
      lockDiscipline ((nni_atomic_sub bump).run (Plat.start ⟨w⟩)) = true ∧
      lockDiscipline (nni_atomic_inc.run (Plat.start ⟨w⟩)) = true ∧
      lockDiscipline (nni_atomic_dec.run (Plat.start ⟨w⟩)) = true ∧
      lockDiscipline (nni_atomic_dec_nv.run (Plat.start ⟨w⟩)) = true) := by
  refine ⟨⟨rfl, rfl, rfl, rfl, rfl⟩, ⟨rfl, rfl, rfl, rfl, rfl, rfl, rfl, ?_⟩,
    ⟨rfl, rfl, rfl, rfl, ?_⟩, rfl, rfl, rfl, rfl, rfl⟩
  · rw [Plat.start, cas64_run]
    split <;> rfl
  · rw [Plat.start, cas_run]
    split <;> rfl


/-! ## The socket boundary -/

theorem setopt_sndtimeo_ok (s s1 : nng_socket) (T : Int) (n : Nat)
    (hset : nng_setopt s .NNG_OPT_SNDTIMEO T n = (.ok, s1)) :
    s1.state ≠ .closed ∧ s1.sndtimeo = T := by
  unfold nng_setopt at hset
  by_cases hc : s.state = .closed
  · rw [if_pos hc] at hset
    cases hset
  · rw [if_neg hc] at hset
    by_cases hn : n ≠ nng_opt.size .NNG_OPT_SNDTIMEO
    · rw [if_pos hn] at hset
      cases hset
    · rw [if_neg hn] at hset
      cases hset
      exact ⟨hc, rfl⟩

/-- C9. Option size policy.  After `nng_setopt(sock, NNG_OPT_SNDTIMEO, T)`
succeeds, `nng_getopt` with a caller size below the natural size returns 0,
reports the natural size `sizeof(int64_t) = 8` and leaves the buffer as it
was; with the natural size it returns 0, reports 8 and the buffer holds `T`. -/
theorem getopt_size_policy (s s1 : nng_socket) (T buf : Int) (n sz : Nat)
    (hset : nng_setopt s .NNG_OPT_SNDTIMEO T n = (.ok, s1)) (hsz : sz < 8) :
    nng_getopt s1 .NNG_OPT_SNDTIMEO buf sz = (.ok, buf, 8) ∧
    nng_getopt s1 .NNG_OPT_SNDTIMEO buf 8 = (.ok, T, 8) := by
  obtain ⟨hc, hT⟩ := setopt_sndtimeo_ok s s1 T n hset
  constructor
  · unfold nng_getopt
    rw [if_neg hc, if_pos (show sz < nng_opt.size .NNG_OPT_SNDTIMEO from hsz)]
    rfl
  · unfold nng_getopt
    rw [if_neg hc, if_neg (show ¬ 8 < nng_opt.size .NNG_OPT_SNDTIMEO by decide)]
    show (nng_errno.ok, s1.sndtimeo, 8) = _
    rw [hT]

theorem getopt_size_policy_witness :
    (nng_setopt (nng_open 0) .NNG_OPT_SNDTIMEO 1234 8
        = (.ok, { nng_open 0 with sndtimeo := 1234 }) ∧ 0 < 8) ∧
    nng_getopt { nng_open 0 with sndtimeo := 1234 } .NNG_OPT_SNDTIMEO 0 0 = (.ok, 0, 8) ∧
    nng_getopt { nng_open 0 with sndtimeo := 1234 } .NNG_OPT_SNDTIMEO 0 8 = (.ok, 1234, 8) :=
  ⟨⟨rfl, by decide⟩,
    getopt_size_policy (nng_open 0) { nng_open 0 with sndtimeo := 1234 } 1234 0 8 0 rfl
      (by decide)⟩

theorem shutdown_repeat_shut (k : Nat) (s : nng_socket) (h : s.state ≠ .opened) :
    shutdown_repeat k s = (List.replicate k .NNG_ECLOSED, s) := by
  have hs : nng_shutdown s = (.NNG_ECLOSED, s) := by
    unfold nng_shutdown
    cases hst : s.state with
    | opened => exact absurd hst h
    | shut => rfl
    | closed => rfl
  induction k with
  | zero => rfl
  | succ k ih =>
    rw [shutdown_repeat]
    simp only [hs, ih, List.replicate_succ]

/-- C10. Shutdown happens once.  On an open socket the first `nng_shutdown`
returns 0 and runs the cascade once; each of any number of later calls
returns `NNG_ECLOSED` and leaves the socket exactly as the first call left it
(no second cascade); send and recv after shutdown return `NNG_ECLOSED` at
once instead of suspending the caller. -/
theorem shutdown_once (s : nng_socket) (hopen : s.state = .opened) (k : Nat)
    (nonblock room : Bool) :
    (nng_shutdown s).1 = .ok ∧
    (nng_shutdown s).2.cascades = s.cascades + 1 ∧
    (shutdown_repeat k (nng_shutdown s).2).1 = List.replicate k .NNG_ECLOSED ∧
    (shutdown_repeat k (nng_shutdown s).2).2 = (nng_shutdown s).2 ∧
    nng_recvmsg (nng_shutdown s).2 nonblock = .returned .NNG_ECLOSED none ∧
    nng_sendmsg (nng_shutdown s).2 room nonblock = .returned .NNG_ECLOSED none := by
  have hs : nng_shutdown s =
      (.ok, { s with state := .shut, pipes := [], endpoints := [], cascades := s.cascades + 1 }) := by
    unfold nng_shutdown
    rw [hopen]
  rw [hs]
  refine ⟨rfl, rfl, ?_, ?_, rfl, rfl⟩
  · rw [shutdown_repeat_shut k _ (by simp)]
  · rw [shutdown_repeat_shut k _ (by simp)]

theorem shutdown_once_witness :
    (nng_open 0).state = .opened ∧
    (nng_shutdown (nng_open 0)).1 = .ok ∧
    (nng_shutdown (nng_open 0)).2.cascades = (nng_open 0).cascades + 1 ∧
    (shutdown_repeat 3 (nng_shutdown (nng_open 0)).2).1 = List.replicate 3 .NNG_ECLOSED ∧
    (shutdown_repeat 3 (nng_shutdown (nng_open 0)).2).2 = (nng_shutdown (nng_open 0)).2 ∧
    nng_recvmsg (nng_shutdown (nng_open 0)).2 false = .returned .NNG_ECLOSED none ∧
    nng_sendmsg (nng_shutdown (nng_open 0)).2 true false = .returned .NNG_ECLOSED none :=
  ⟨rfl, shutdown_once (nng_open 0) rfl 3 false true⟩

/-! ## Statement-level interleavings -/



theorem split_at_index {α : Type} (l : List α) :
    ∀ (i : Nat) (a : α), l[i]? = some a →
      ∃ l1 l2, l = l1 ++ a :: l2 ∧ ∀ b, l.set i b = l1 ++ b :: l2 := by
  induction l with
  | nil => intro i a h; simp at h
  | cons x xs ih =>
    intro i a h
    cases i with
    | zero =>
      simp at h
      subst h
      exact ⟨[], xs, rfl, fun b => rfl⟩
    | succ j =>
      simp at h
      obtain ⟨l1, l2, h1, h2⟩ := ih j a h
      refine ⟨x :: l1, l2, by rw [h1]; rfl, fun b => ?_⟩
      rw [List.set_cons_succ, h2 b]
      rfl

theorem accessesHeld_cons (e : Event) (t : List Event) :
    accessesHeld (e :: t) =
      ((match e with
        | .read held => held
        | .write held => held
        | _ => true) && accessesHeld t) := rfl

/-- One scheduled step preserves the invariant, and is always defined for
an index that names a thread. -/
theorem sysStep_inv (v0 i : Nat) (s : Sys) (hi : i < s.threads.length) (inv : IncInv v0 s) :
    ∃ s', sysStep i s = some s' ∧ IncInv v0 s' ∧ s'.threads.length = s.threads.length := by
  obtain ⟨⟨l, ⟨v⟩, t⟩, ths⟩ := s
  obtain ⟨hcrit, htmp, hval, hheld⟩ := inv
  simp only at hcrit htmp hval hheld hi
  have hget : ths[i]? = some ths[i] := List.getElem?_eq_getElem hi
  obtain ⟨l1, l2, hsplit, hset⟩ := split_at_index ths i ths[i] hget
  generalize ths[i] = pc at hget hsplit hset
  subst hsplit
  simp only [List.countP_append, List.countP_cons] at hcrit hval
  cases pc with
  | entry =>
    cases l with
    | true =>
      refine ⟨_, by simp only [sysStep, hget]; rfl, ⟨?_, ?_, ?_, ?_⟩, rfl⟩
      · simpa only [List.countP_append, List.countP_cons] using hcrit
      · exact htmp
      · simpa only [List.countP_append, List.countP_cons] using hval
      · exact hheld
    | false =>
      refine ⟨_, by simp only [sysStep, hget]; rfl, ⟨?_, ?_, ?_, ?_⟩, ?_⟩
      · simp only [hset, List.countP_append, List.countP_cons, IncPc.inCritical,
          Bool.false_eq_true, if_false, if_true] at hcrit ⊢
        omega
      · intro x hx
        simp only [hset, List.mem_append, List.mem_cons] at hx
        apply htmp x
        simp only [List.mem_append, List.mem_cons]
        rcases hx with h | h | h
        · exact Or.inl h
        · cases h
        · exact Or.inr (Or.inr h)
      · simp only [hset, List.countP_append, List.countP_cons, IncPc.hasBumped,
          Bool.false_eq_true, if_false] at hval ⊢
        exact hval
      · simp only [accessesHeld_cons, Bool.true_and]
        exact hheld
      · simp only [hset, List.length_append, List.length_cons]
  | locked =>
    cases l with
    | false =>
      simp only [IncPc.inCritical, Bool.false_eq_true, if_false, if_true] at hcrit
      omega
    | true =>
      refine ⟨_, by simp only [sysStep, hget]; rfl, ⟨?_, ?_, ?_, ?_⟩, ?_⟩
      · simp only [hset, List.countP_append, List.countP_cons, IncPc.inCritical,
          if_true] at hcrit ⊢
        exact hcrit
      · intro x hx
        simp only [hset, List.mem_append, List.mem_cons] at hx
        rcases hx with h | h | h
        · exact htmp x (by simp only [List.mem_append, List.mem_cons]; exact Or.inl h)
        · cases h
          rfl
        · exact htmp x (by simp only [List.mem_append, List.mem_cons]; exact Or.inr (Or.inr h))
      · simp only [hset, List.countP_append, List.countP_cons, IncPc.hasBumped,
          Bool.false_eq_true, if_false] at hval ⊢
        exact hval
      · simp only [accessesHeld_cons, Bool.true_and]
        exact hheld
      · simp only [hset, List.length_append, List.length_cons]
  | loaded x =>
    cases l with
    | false =>
      simp only [IncPc.inCritical, Bool.false_eq_true, if_false, if_true] at hcrit
      omega
    | true =>
      have hx : x = v := htmp x (List.mem_append_right l1 (List.mem_cons_self _ _))
      subst hx
      simp only [IncPc.inCritical, if_true] at hcrit
      refine ⟨_, by simp only [sysStep, hget]; rfl, ⟨?_, ?_, ?_, ?_⟩, ?_⟩
      · simp only [hset, List.countP_append, List.countP_cons, IncPc.inCritical, if_true]
        exact hcrit
      · intro y hy
        simp only [hset, List.mem_append, List.mem_cons] at hy
        exfalso
        rcases hy with h | h | h
        · have : 0 < List.countP IncPc.inCritical l1 := List.countP_pos_iff.mpr ⟨_, h, rfl⟩
          omega
        · cases h
        · have : 0 < List.countP IncPc.inCritical l2 := List.countP_pos_iff.mpr ⟨_, h, rfl⟩
          omega
      · simp only [hset, List.countP_append, List.countP_cons, IncPc.hasBumped,
          Bool.false_eq_true, if_false, if_true] at hval ⊢
        show u64_add x 1 = _
        rw [hval]
        simp only [u64_add, UINT64_MOD]
        omega
      · simp only [accessesHeld_cons, Bool.true_and]
        exact hheld
      · simp only [hset, List.length_append, List.length_cons]
  | written =>
    cases l with
    | false =>
      simp only [IncPc.inCritical, Bool.false_eq_true, if_false, if_true] at hcrit
      omega
    | true =>
      simp only [IncPc.inCritical, if_true] at hcrit
      refine ⟨_, by simp only [sysStep, hget]; rfl, ⟨?_, ?_, ?_, ?_⟩, ?_⟩
      · simp only [hset, List.countP_append, List.countP_cons, IncPc.inCritical,
          Bool.false_eq_true, if_false]
        omega
      · intro y hy
        simp only [hset, List.mem_append, List.mem_cons] at hy
        rcases hy with h | h | h
        · exact htmp y (by simp only [List.mem_append, List.mem_cons]; exact Or.inl h)
        · cases h
        · exact htmp y (by simp only [List.mem_append, List.mem_cons]; exact Or.inr (Or.inr h))
      · simp only [hset, List.countP_append, List.countP_cons, IncPc.hasBumped,
          if_true] at hval ⊢
        exact hval
      · simp only [accessesHeld_cons, Bool.true_and]
        exact hheld
      · simp only [hset, List.length_append, List.length_cons]
  | returned =>
    refine ⟨_, by simp only [sysStep, hget]; rfl, ⟨?_, ?_, ?_, ?_⟩, ?_⟩
    · simp only [hset, List.countP_append, List.countP_cons]
      exact hcrit
    · intro y hy
      simp only [hset] at hy
      exact htmp y hy
    · simp only [hset, List.countP_append, List.countP_cons]
      exact hval
    · exact hheld
    · simp only [hset]

/-- Executing the four statements of one thread in a row is the call
`nni_atomic_inc64`. -/
theorem incStep_sequence (p : Plat nni_atomic_u64) :
    (do
      let a ← incStep .entry
      let b ← incStep a
      let c ← incStep b
      let _ ← incStep c
      pure ()).run p = nni_atomic_inc64.run p := by
  obtain ⟨l, ⟨v⟩, t⟩ := p
  cases l <;> rfl


/-- Every interleaving that schedules only existing threads can be executed
to its end, and the invariant holds at its end. -/
theorem runInterleaving_inv (v0 : Nat) (sched : List Nat) :
    ∀ s : Sys, IncInv v0 s → (∀ i ∈ sched, i < s.threads.length) →
      ∃ s', runInterleaving sched s = some s' ∧ IncInv v0 s' ∧
        s'.threads.length = s.threads.length := by
  induction sched with
  | nil => intro s inv _; exact ⟨s, rfl, inv, rfl⟩
  | cons i rest ih =>
    intro s inv hi
    obtain ⟨s1, h1, inv1, len1⟩ := sysStep_inv v0 i s (hi i (List.mem_cons_self _ _)) inv
    obtain ⟨s2, h2, inv2, len2⟩ := ih s1 inv1 (fun j hj => by
      rw [len1]
      exact hi j (List.mem_cons_of_mem _ hj))
    refine ⟨s2, ?_, inv2, by rw [len2, len1]⟩
    rw [runInterleaving, h1]
    exact h2

/-- Statement-level counterpart of the counter property.  `N` threads each
call `nni_atomic_inc64` on a counter holding `v0`; whatever the order in
which the scheduler lets them take their steps, the execution is defined,
every access to the counter happens under the lock, and once all threads
have returned the counter holds `(v0 + N) mod 2^64` and the mutex is free. -/
theorem inc64_interleaving (N v0 : Nat) (hv : isU64 v0) (sched : List Nat)
    (hs : ∀ i ∈ sched, i < N) :
    ∃ s', runInterleaving sched ⟨Plat.start ⟨v0⟩, List.replicate N .entry⟩ = some s' ∧
      accessesHeld s'.plat.trace = true ∧
      ((∀ pc ∈ s'.threads, pc = .returned) →
        s'.plat.obj.v = (v0 + N) % UINT64_MOD ∧ s'.plat.plat_atomic_lock = false) := by
  have inv0 : IncInv v0 ⟨Plat.start ⟨v0⟩, List.replicate N .entry⟩ := by
    refine ⟨?_, ?_, ?_, rfl⟩
    · simp [Plat.start, List.countP_replicate, IncPc.inCritical]
    · intro x hx
      simp [List.mem_replicate] at hx
    · simp only [Plat.start, List.countP_replicate, IncPc.hasBumped, Bool.false_eq_true,
        if_false, Nat.add_zero]
      exact (Nat.mod_eq_of_lt hv).symm
  obtain ⟨s', hrun, inv, len⟩ := runInterleaving_inv v0 sched _ inv0 (by
    simpa only [List.length_replicate] using hs)
  refine ⟨s', hrun, inv.held, fun hall => ?_⟩
  simp only [List.length_replicate] at len
  have hb : s'.threads.countP IncPc.hasBumped = N := by
    rw [← len]
    exact List.countP_eq_length.mpr (fun pc hpc => by rw [hall pc hpc]; rfl)
  have hc : s'.threads.countP IncPc.inCritical = 0 :=
    List.countP_eq_zero.mpr (fun pc hpc => by rw [hall pc hpc]; simp [IncPc.inCritical])
  refine ⟨by rw [inv.val, hb], ?_⟩
  have := inv.crit
  rw [hc] at this
  cases h : s'.plat.plat_atomic_lock with
  | false => rfl
  | true => rw [h] at this; simp at this

theorem inc64_interleaving_example :
    runInterleaving [1, 0, 1, 1, 0, 0, 1, 0, 0, 0, 0]
        ⟨Plat.start ⟨18446744073709551615⟩, [.entry, .entry]⟩
      = some ⟨⟨false, ⟨1⟩, [.unlock, .write true, .read true, .lock,
          .unlock, .write true, .read true, .lock]⟩, [.returned, .returned]⟩ := by
  decide



/-! ## Reference counts and 64-bit arithmetic -/

theorem u64_sub_one_eq_zero_iff (v : Nat) (hv : isU64 v) : u64_sub v 1 = 0 ↔ v = 1 := by
  simp only [isU64, u64_sub, UINT64_MOD] at *
  omega

theorem u64_sub_int (v bump : Nat) :
    ((u64_sub v bump : Nat) : Int) = ((v : Int) - (bump : Int)) % 2 ^ 64 := by
  simp only [u64_sub, UINT64_MOD]
  omega

/-- C11. Reference-count release is exact.  For every stored 64-bit value
`v`, `nni_atomic_dec64_nv` returns 0 exactly when `v = 1`; on `v = 0` it
wraps to `2^64 - 1`; `nni_atomic_add64` leaves `(v + bump) mod 2^64` and
`nni_atomic_sub64` leaves `(v - bump) mod 2^64` in the cell. -/
theorem refcount_release_exact (v bump : Nat) (hv : isU64 v) :
    (retval (nni_atomic_dec64_nv.run (Plat.start ⟨v⟩)) = some 0 ↔ v = 1) ∧
    retval (nni_atomic_dec64_nv.run (Plat.start ⟨0⟩)) = some (2 ^ 64 - 1) ∧
    retval (nni_atomic_dec64_nv.run (Plat.start ⟨0⟩)) ≠ some 0 ∧
    stored ((nni_atomic_add64 bump).run (Plat.start ⟨v⟩)) = some ⟨(v + bump) % 2 ^ 64⟩ ∧
    (∃ x : Nat, stored ((nni_atomic_sub64 bump).run (Plat.start ⟨v⟩)) = some ⟨x⟩ ∧
      (x : Int) = ((v : Int) - (bump : Int)) % 2 ^ 64) := by
  refine ⟨?_, by decide, by decide, rfl, ⟨u64_sub v bump, rfl, u64_sub_int v bump⟩⟩
  show some (u64_sub v 1) = some 0 ↔ v = 1
  rw [Option.some_inj]
  exact u64_sub_one_eq_zero_iff v hv

theorem refcount_release_exact_witness :
    isU64 1 ∧
    ((retval (nni_atomic_dec64_nv.run (Plat.start ⟨1⟩)) = some 0 ↔ 1 = 1) ∧
    retval (nni_atomic_dec64_nv.run (Plat.start ⟨0⟩)) = some (2 ^ 64 - 1) ∧
    retval (nni_atomic_dec64_nv.run (Plat.start ⟨0⟩)) ≠ some 0 ∧
    stored ((nni_atomic_add64 18446744073709551615).run (Plat.start ⟨1⟩))
      = some ⟨(1 + 18446744073709551615) % 2 ^ 64⟩ ∧
    (∃ x : Nat, stored ((nni_atomic_sub64 18446744073709551615).run (Plat.start ⟨1⟩)) = some ⟨x⟩ ∧
      (x : Int) = (((1 : Nat) : Int) - ((18446744073709551615 : Nat) : Int)) % 2 ^ 64)) :=
  ⟨by decide, refcount_release_exact 1 18446744073709551615 (by decide)⟩


/-! ## The flag -/

theorem testAndSetRepeat_set (k : Nat) :
    ∀ t : List Event, ∃ t',
      (testAndSetRepeat k).run ⟨false, ⟨true⟩, t⟩
        = .ok (List.replicate k true, ⟨false, ⟨true⟩, t'⟩) := by
  induction k with
  | zero => intro t; exact ⟨t, rfl⟩
  | succ k ih =>
    intro t
    obtain ⟨t', h⟩ := ih (.unlock :: .write true :: .read true :: .lock :: t)
    refine ⟨t', ?_⟩
    rw [testAndSetRepeat, run_bind, flag_test_and_set_run]
    show (testAndSetRepeat k >>= fun rest => pure (true :: rest)).run _ = _
    rw [run_bind, h]
    rfl

/-- C12. Flag test-and-set elects exactly one winner.  From every flag state
the call returns the previous state and leaves the flag set, and a second
call leaves the same state; of `k >= 1` calls that follow
`nni_atomic_flag_reset`, with no reset in between, the first returns `false`
and each of the others returns `true`. -/
theorem test_and_set_one_winner (f : Bool) (k : Nat) (hk : 1 ≤ k) :
    retval (nni_atomic_flag_test_and_set.run (Plat.start ⟨f⟩)) = some f ∧
    stored (nni_atomic_flag_test_and_set.run (Plat.start ⟨f⟩)) = some ⟨true⟩ ∧
    stored ((do let _ ← nni_atomic_flag_test_and_set; nni_atomic_flag_test_and_set).run
        (Plat.start ⟨f⟩)) = stored (nni_atomic_flag_test_and_set.run (Plat.start ⟨f⟩)) ∧
    retval ((do nni_atomic_flag_reset; testAndSetRepeat k).run (Plat.start ⟨f⟩))
      = some (false :: List.replicate (k - 1) true) := by
  refine ⟨rfl, rfl, rfl, ?_⟩
  obtain ⟨j, rfl⟩ : ∃ j, k = j + 1 := ⟨k - 1, by omega⟩
  obtain ⟨t', h⟩ := testAndSetRepeat_set j
    [.unlock, .write true, .read true, .lock, .unlock, .write true, .lock]
  show retval ((nni_atomic_flag_reset >>= fun _ => testAndSetRepeat (j + 1)).run
    ⟨false, ⟨f⟩, []⟩) = _
  rw [run_bind, flag_reset_run]
  show retval ((testAndSetRepeat (j + 1)).run ⟨false, ⟨false⟩, [.unlock, .write true, .lock]⟩) = _
  rw [testAndSetRepeat, run_bind, flag_test_and_set_run]
  show retval ((testAndSetRepeat j >>= fun rest => pure (false :: rest)).run _) = _
  rw [run_bind, h]
  rfl

theorem test_and_set_one_winner_witness :
    1 ≤ 3 ∧
    (retval (nni_atomic_flag_test_and_set.run (Plat.start ⟨true⟩)) = some true ∧
    stored (nni_atomic_flag_test_and_set.run (Plat.start ⟨true⟩)) = some ⟨true⟩ ∧
    stored ((do let _ ← nni_atomic_flag_test_and_set; nni_atomic_flag_test_and_set).run
        (Plat.start ⟨true⟩)) = stored (nni_atomic_flag_test_and_set.run (Plat.start ⟨true⟩)) ∧
    retval ((do nni_atomic_flag_reset; testAndSetRepeat 3).run (Plat.start ⟨true⟩))
      = some (false :: List.replicate (3 - 1) true)) :=
  ⟨by decide, test_and_set_one_winner true 3 (by decide)⟩


/-! ## Algebra of add and sub -/

theorem u64_sub_add_cancel (v a : Nat) (hv : isU64 v) : u64_sub (u64_add v a) a = v := by
  simp only [isU64, u64_add, u64_sub, UINT64_MOD] at *
  omega

theorem u64_add_add (v a b : Nat) :
    u64_add (u64_add v a) b = u64_add v ((a + b) % 2 ^ 64) := by
  simp only [u64_add, UINT64_MOD]
  omega

theorem u64_add_comm_right (v a b : Nat) :
    u64_add (u64_add v a) b = u64_add (u64_add v b) a := by
  simp only [u64_add, UINT64_MOD]
  omega

theorem add64_then_sub64_run (v a : Nat) (t : List Event) :
    (do nni_atomic_add64 a; nni_atomic_sub64 a).run ⟨false, ⟨v⟩, t⟩ =
      .ok ((), ⟨false, ⟨u64_sub (u64_add v a) a⟩,
        .unlock :: .write true :: .read true :: .lock ::
          .unlock :: .write true :: .read true :: .lock :: t⟩) := rfl

theorem add64_then_add64_run (v a b : Nat) (t : List Event) :
    (do nni_atomic_add64 a; nni_atomic_add64 b).run ⟨false, ⟨v⟩, t⟩ =
      .ok ((), ⟨false, ⟨u64_add (u64_add v a) b⟩,
        .unlock :: .write true :: .read true :: .lock ::
          .unlock :: .write true :: .read true :: .lock :: t⟩) := rfl

theorem add_then_sub_run (v a : Int) (t : List Event) (h1 : isInt (v + a)) (h0 : isInt v) :
    (do nni_atomic_add a; nni_atomic_sub a).run ⟨false, ⟨v⟩, t⟩ =
      .ok ((), ⟨false, ⟨v⟩,
        .unlock :: .write true :: .read true :: .lock ::
          .unlock :: .write true :: .read true :: .lock :: t⟩) := by
  have h2 : isInt (v + a - a) := by rw [Int.add_sub_cancel]; exact h0
  have e : (do nni_atomic_add a; nni_atomic_sub a).run ⟨false, ⟨v⟩, t⟩ =
      .ok ((), ⟨false, ⟨int_wrap (int_wrap (v + a) - a)⟩,
        .unlock :: .write true :: .read true :: .lock ::
          .unlock :: .write true :: .read true :: .lock :: t⟩) := rfl
  rw [e, int_wrap_of_isInt (v + a) h1, int_wrap_of_isInt (v + a - a) h2, Int.add_sub_cancel]

/-- C13. Add and sub are mutual inverses and add composes.  On a 64-bit
cell `add64(a)` then `sub64(a)` restores the stored value (also when the
addition wraps), `add64(a)` then `add64(b)` leaves what a single
`add64((a + b) mod 2^64)` leaves, and the two adds commute; on an `int` cell
`add(a)` then `sub(a)` restores the stored value whenever `v + a` is in the
`int` range. -/
theorem add_sub_algebra (v a b : Nat) (hv : isU64 v) (w c : Int) (hw : isInt w)
    (hsum : isInt (w + c)) :
    stored ((do nni_atomic_add64 a; nni_atomic_sub64 a).run (Plat.start ⟨v⟩)) = some ⟨v⟩ ∧
    stored ((do nni_atomic_add64 a; nni_atomic_add64 b).run (Plat.start ⟨v⟩))
      = stored ((nni_atomic_add64 ((a + b) % 2 ^ 64)).run (Plat.start ⟨v⟩)) ∧
    stored ((do nni_atomic_add64 a; nni_atomic_add64 b).run (Plat.start ⟨v⟩))
      = stored ((do nni_atomic_add64 b; nni_atomic_add64 a).run (Plat.start ⟨v⟩)) ∧
    stored ((do nni_atomic_add c; nni_atomic_sub c).run (Plat.start ⟨w⟩)) = some ⟨w⟩ := by
  refine ⟨?_, ?_, ?_, ?_⟩
  · rw [Plat.start, add64_then_sub64_run, stored, u64_sub_add_cancel v a hv]
  · rw [Plat.start, add64_then_add64_run, add64_run, stored, stored, u64_add_add]
  · rw [Plat.start, add64_then_add64_run, add64_then_add64_run, stored, stored,
      u64_add_comm_right]
  · rw [Plat.start, add_then_sub_run w c [] hsum hw, stored]

theorem add_sub_algebra_witness :
    (isU64 18446744073709551615 ∧ isInt 2147483640 ∧ isInt (2147483640 + 7)) ∧
    (stored ((do nni_atomic_add64 5; nni_atomic_sub64 5).run
        (Plat.start ⟨18446744073709551615⟩)) = some ⟨18446744073709551615⟩ ∧
    stored ((do nni_atomic_add64 5; nni_atomic_add64 9).run (Plat.start ⟨18446744073709551615⟩))
      = stored ((nni_atomic_add64 ((5 + 9) % 2 ^ 64)).run (Plat.start ⟨18446744073709551615⟩)) ∧
    stored ((do nni_atomic_add64 5; nni_atomic_add64 9).run (Plat.start ⟨18446744073709551615⟩))
      = stored ((do nni_atomic_add64 9; nni_atomic_add64 5).run
          (Plat.start ⟨18446744073709551615⟩)) ∧
    stored ((do nni_atomic_add 7; nni_atomic_sub 7).run (Plat.start ⟨2147483640⟩))
      = some ⟨2147483640⟩) :=
  ⟨by decide, add_sub_algebra 18446744073709551615 5 9 (by decide) 2147483640 7 (by decide)
    (by decide)⟩


/-! ## Specialised and general counter operations -/

theorem dec_then_get_run (w : Int) (t : List Event) :
    (do nni_atomic_dec; nni_atomic_get).run ⟨false, ⟨w⟩, t⟩ =
      .ok (int_wrap (w - 1), ⟨false, ⟨int_wrap (w - 1)⟩,
        .unlock :: .read true :: .lock :: .unlock :: .write true :: .read true :: .lock :: t⟩) :=
  rfl

/-- C14. The specialised counter operations agree with the general ones.
In every state `nni_atomic_inc64` does what `nni_atomic_add64(1)` does,
`nni_atomic_inc` what `nni_atomic_add(1)` does and `nni_atomic_dec` what
`nni_atomic_sub(1)` does; `nni_atomic_dec64_nv` leaves the cell
`nni_atomic_sub64(1)` leaves and returns what the following
`nni_atomic_get64` returns; `nni_atomic_dec_nv` returns and leaves what
`nni_atomic_dec` followed by `nni_atomic_get` returns and leaves. -/
theorem specialised_agree_with_general (p : Plat nni_atomic_u64) (q : Plat nni_atomic_int)
    (v : Nat) (w : Int) :
    nni_atomic_inc64.run p = (nni_atomic_add64 1).run p ∧
    stored (nni_atomic_dec64_nv.run (Plat.start ⟨v⟩))
      = stored ((nni_atomic_sub64 1).run (Plat.start ⟨v⟩)) ∧
    (∃ x, retval (nni_atomic_dec64_nv.run (Plat.start ⟨v⟩)) = some x ∧
      retval ((do let _ ← nni_atomic_dec64_nv; nni_atomic_get64).run (Plat.start ⟨v⟩))
        = some x) ∧
    nni_atomic_inc.run q = (nni_atomic_add 1).run q ∧
    nni_atomic_dec.run q = (nni_atomic_sub 1).run q ∧
    retval (nni_atomic_dec_nv.run (Plat.start ⟨w⟩))
      = retval ((do nni_atomic_dec; nni_atomic_get).run (Plat.start ⟨w⟩)) ∧
    stored (nni_atomic_dec_nv.run (Plat.start ⟨w⟩))
      = stored ((do nni_atomic_dec; nni_atomic_get).run (Plat.start ⟨w⟩)) := by
  refine ⟨rfl, ?_, ⟨u64_sub v 1, rfl, rfl⟩, rfl, rfl, ?_, ?_⟩
  · rw [Plat.start, dec64_nv_run, sub64_run, stored, stored]
  · rw [Plat.start, dec_nv_run, dec_then_get_run, retval, retval]
  · rw [Plat.start, dec_nv_run, dec_then_get_run, stored, stored]

end Nng
